import Mathlib

/-!
Shallow embedding of the WCS/DR repository (Weighted Cohesion Score /
Distributional Ratio).

Python floats are modelled as rationals (`ℚ`); exact arithmetic stands in
for IEEE floats.  Fallible Python functions (those that may `raise`) are
modelled with `Except WcsError`.  Python's `ValueError` sites are given
distinct constructors following the error taxonomy (shape mismatch,
missing configuration, invalid argument); Python float division raises
`ZeroDivisionError` on a zero denominator, modelled by the
`divisionByZero` constructor at the one unguarded division site.
-/

/-- Which pair of sequences had mismatched lengths (the four distinct
`ValueError` sites of `weighted_cohesion_score`). -/
inductive ShapeField where
  | subjectTarget
  | weights
  | similarity
  | scales
  deriving DecidableEq, Repr

/-- Error taxonomy of the library: every `raise` site of `wscdr.py`,
plus Python's `ZeroDivisionError` for an unguarded float division. -/
inductive WcsError where
  | shapeMismatch (f : ShapeField)
  | missingConfiguration
  | invalidArgument
  | divisionByZero
  deriving DecidableEq, Repr

/-- A per-attribute similarity function, `(float, float) -> float` in the
source; a Python callable may raise, hence the `Except`. -/
abbrev SimFunc := ℚ → ℚ → Except WcsError ℚ

/-- `max(0.0, min(1.0, x))`, the clipping idiom of the source. -/
def clip01 (x : ℚ) : ℚ := max 0 (min 1 x)

/-- `similarity_binary(a, b)`: 1.0 if `a == b` else 0.0. -/
def similarity_binary (a b : ℚ) : ℚ := if a = b then 1 else 0

/-- `similarity_binary` packaged as a `SimFunc` value (it never raises). -/
def binF : SimFunc := fun a b => .ok (similarity_binary a b)

/-- `similarity_scalar(a, b, scale)`: raises `ValueError` ("scale must be
positive.", the `InvalidArgument` condition) when `scale <= 0`, else
returns `max(0.0, min(1.0, 1.0 - abs(a - b) / scale))`. -/
def similarity_scalar (a b scale : ℚ) : Except WcsError ℚ :=
  if scale ≤ 0 then .error .invalidArgument
  else .ok (max 0 (min 1 (1 - |a - b| / scale)))

/-- `make_scalar_sim(scale)`: the closure built in
`weighted_cohesion_score` for the `scales` pathway. -/
def scalarF (scale : ℚ) : SimFunc := fun a b => similarity_scalar a b scale

/-- The accumulation loop of `weighted_cohesion_score` (lines 132-143):
for each index, skip when `w[i] <= 0`, otherwise evaluate the similarity,
clip it to [0,1], and accumulate `w[i]*sim` and `w[i]`.  Returns the pair
`(weighted_sum, weight_total)`; an exception from a similarity call
propagates from the first failing index. -/
def wcsAccum : List ℚ → List ℚ → List ℚ → List SimFunc →
    Except WcsError (ℚ × ℚ)
  | si :: s, ti :: t, wi :: w, fi :: fs =>
    if wi ≤ 0 then wcsAccum s t w fs
    else
      match fi si ti with
      | .error e => .error e
      | .ok sv =>
        match wcsAccum s t w fs with
        | .error e => .error e
        | .ok (rs, rt) => .ok (wi * clip01 sv + rs, wi + rt)
  | _, _, _, _ => .ok (0, 0)

/-- `weighted_cohesion_score(subject, target, weights=None,
similarity=None, scales=None)` from `wscdr.py`, translated check for
check: length equality of subject/target first, then the `n == 0` early
return of 0.0, then weight defaulting/validation, then similarity-source
resolution (explicit list, else scalar similarities from `scales`), then
the accumulation loop, and finally `0.0` when `weight_total <= 0`, else
`weighted_sum / weight_total`. -/
def weighted_cohesion_score (subject target : List ℚ)
    (weights : Option (List ℚ)) (similarity : Option (List SimFunc))
    (scales : Option (List ℚ)) : Except WcsError ℚ :=
  if subject.length ≠ target.length then .error (.shapeMismatch .subjectTarget)
  else if subject.length = 0 then .ok 0
  else
    let n := subject.length
    let wE : Except WcsError (List ℚ) :=
      match weights with
      | none => .ok (List.replicate n 1)
      | some ws =>
        if ws.length ≠ n then .error (.shapeMismatch .weights) else .ok ws
    let simsE : Except WcsError (List SimFunc) :=
      match similarity with
      | some fs =>
        if fs.length ≠ n then .error (.shapeMismatch .similarity) else .ok fs
      | none =>
        match scales with
        | none => .error .missingConfiguration
        | some sc =>
          if sc.length ≠ n then .error (.shapeMismatch .scales)
          else .ok (sc.map scalarF)
    match wE with
    | .error e => .error e
    | .ok w =>
      match simsE with
      | .error e => .error e
      | .ok sims =>
        match wcsAccum subject target w sims with
        | .error e => .error e
        | .ok (wsum, wtot) =>
          if wtot ≤ 0 then .ok 0 else .ok (wsum / wtot)

/-- Result of `distributional_ratio`: a finite float or `math.inf`. -/
inductive DRVal where
  | val (q : ℚ)
  | posInf
  deriving DecidableEq, Repr

/-- `distributional_ratio(subject, target_a, target_b, ..., eps)` from
`wscdr.py`: the two WCS calls with the same configuration, the
`wcs_b <= eps` guard returning 1.0 or `math.inf`, and otherwise the float
division `wcs_a / wcs_b` (which in Python raises `ZeroDivisionError` when
`wcs_b == 0.0`, hence the explicit zero check in the model). -/
def distributional_ratio (subject target_a target_b : List ℚ)
    (weights : Option (List ℚ)) (similarity : Option (List SimFunc))
    (scales : Option (List ℚ)) (eps : ℚ) : Except WcsError DRVal :=
  match weighted_cohesion_score subject target_a weights similarity scales with
  | .error e => .error e
  | .ok wcs_a =>
    match weighted_cohesion_score subject target_b weights similarity scales with
    | .error e => .error e
    | .ok wcs_b =>
      if wcs_b ≤ eps then
        if wcs_a ≤ eps then .ok (.val 1) else .ok .posInf
      else if wcs_b = 0 then .error .divisionByZero
      else .ok (.val (wcs_a / wcs_b))

/-- Modelled from the spec: the module `wcsdr` imported by
`example_wcsdr.py` (providing `evaluate_option` and `rank_options`) is not
among the source files; spec section 4.4 defines
`cohesion(F, P, D, wF=1, wP=1, wD_star=1)`: clamp F, P, D to [0,1],
set `D_star = 1 - D`, and return
`(wF*F + wP*P + wD_star*D_star) / (wF + wP + wD_star)`, or 0.0 if the
weight sum is ≤ 0. -/
def cohesion (F P D wF wP wD_star : ℚ) : ℚ :=
  let Fc := clip01 F
  let Pc := clip01 P
  let Dc := clip01 D
  let D_star := 1 - Dc
  if wF + wP + wD_star ≤ 0 then 0
  else (wF * Fc + wP * Pc + wD_star * D_star) / (wF + wP + wD_star)

/-- Modelled from the spec: section 4.4 defines
`risk(D, cohesion_value, lambda=0.7)`: clamp D, cohesion_value, and lambda
each independently to [0,1]; return
`lambda*D + (1-lambda)*(1-cohesion_value)`. -/
def risk (D cohesion_value lambda_ : ℚ) : ℚ :=
  let Dc := clip01 D
  let cc := clip01 cohesion_value
  let lc := clip01 lambda_
  lc * Dc + (1 - lc) * (1 - cc)

/-- The `OptionResult` record of the fixed-schema model, with the field
names used by the caller `example_wcsdr.py` (`name`, `F`, `P`, `D`,
`wcs`, `dr`, `vetoed`). -/
structure OptionResult where
  name : String
  F : ℚ
  P : ℚ
  D : ℚ
  wcs : ℚ
  dr : ℚ
  vetoed : Bool
  deriving DecidableEq, Repr

/-- Modelled from the spec: section 4.4 defines
`evaluate_option(name, F, P, D, wF, wP, wD_star, lambda, veto_threshold)`
as the pure composition of `cohesion`, `risk`, and the veto predicate
(vetoed exactly when raw `D > veto_threshold`, strict inequality) into
one immutable record. -/
def evaluate_option (name : String) (F P D wF wP wD_star lambda_ veto_threshold : ℚ) :
    OptionResult :=
  let c := cohesion F P D wF wP wD_star
  let r := risk D c lambda_
  ⟨name, F, P, D, c, r, decide (D > veto_threshold)⟩


theorem wcsAccum_nil (t w : List ℚ) (fs : List SimFunc) :
    wcsAccum [] t w fs = .ok (0, 0) := rfl

theorem wcsAccum_cons (si : ℚ) (s : List ℚ) (ti : ℚ) (t : List ℚ)
    (wi : ℚ) (w : List ℚ) (fi : SimFunc) (fs : List SimFunc) :
    wcsAccum (si :: s) (ti :: t) (wi :: w) (fi :: fs) =
      if wi ≤ 0 then wcsAccum s t w fs
      else
        match fi si ti with
        | .error e => .error e
        | .ok sv =>
          match wcsAccum s t w fs with
          | .error e => .error e
          | .ok (rs, rt) => .ok (wi * clip01 sv + rs, wi + rt) := rfl

theorem wcsAccum_bounds :
    ∀ (s t w : List ℚ) (fs : List SimFunc) (a b : ℚ),
      wcsAccum s t w fs = .ok (a, b) → 0 ≤ a ∧ a ≤ b := by
  intro s
  induction s with
  | nil =>
    intro t w fs a b h
    rw [wcsAccum_nil] at h
    simp [Prod.ext_iff] at h
    simp [← h.1, ← h.2]
  | cons si s ih =>
    intro t w fs a b h
    match t, w, fs with
    | [], w, fs => simp [wcsAccum, Prod.ext_iff] at h; simp [← h.1, ← h.2]
    | ti :: t, [], fs => simp [wcsAccum, Prod.ext_iff] at h; simp [← h.1, ← h.2]
    | ti :: t, wi :: w, [] => simp [wcsAccum, Prod.ext_iff] at h; simp [← h.1, ← h.2]
    | ti :: t, wi :: w, fi :: fs =>
      rw [wcsAccum_cons] at h
      by_cases hw : wi ≤ 0
      · rw [if_pos hw] at h
        exact ih t w fs a b h
      · rw [if_neg hw] at h
        push_neg at hw
        rcases hsv : fi si ti with e | sv
        · rw [hsv] at h; simp at h
        · rw [hsv] at h
          rcases hrec : wcsAccum s t w fs with e | ⟨rs, rt⟩
          · rw [hrec] at h; simp at h
          · rw [hrec] at h
            simp [Prod.ext_iff] at h
            obtain ⟨ha, hb⟩ := h
            obtain ⟨h1, h2⟩ := ih t w fs rs rt hrec
            have hc0 : 0 ≤ clip01 sv := le_max_left 0 _
            have hc1 : clip01 sv ≤ 1 := by
              have := min_le_left (1 : ℚ) sv
              simp [clip01]
            constructor
            · rw [← ha]
              have : 0 ≤ wi * clip01 sv := mul_nonneg (le_of_lt hw) hc0
              linarith
            · rw [← ha, ← hb]
              have : wi * clip01 sv ≤ wi * 1 := by
                apply mul_le_mul_of_nonneg_left hc1 (le_of_lt hw)
              linarith

theorem wcsAccum_all_nonpos :
    ∀ (s t w : List ℚ) (fs : List SimFunc),
      (∀ wi ∈ w, wi ≤ 0) → wcsAccum s t w fs = .ok (0, 0) := by
  intro s
  induction s with
  | nil => intro t w fs _; exact wcsAccum_nil t w fs
  | cons si s ih =>
    intro t w fs hw
    match t, w, fs with
    | [], w, fs => rfl
    | ti :: t, [], fs => rfl
    | ti :: t, wi :: w, [] => rfl
    | ti :: t, wi :: w, fi :: fs =>
      rw [wcsAccum_cons, if_pos (hw wi (List.mem_cons_self wi w))]
      exact ih t w fs (fun x hx => hw x (List.mem_cons_of_mem wi hx))

theorem wcsAccum_symm :
    ∀ (s t w : List ℚ) (fs : List SimFunc),
      (∀ f ∈ fs, ∀ a b, f a b = f b a) →
      wcsAccum s t w fs = wcsAccum t s w fs := by
  intro s
  induction s with
  | nil =>
    intro t w fs _
    rw [wcsAccum_nil]
    match t, w, fs with
    | [], w, fs => rfl
    | ti :: t, [], fs => rfl
    | ti :: t, wi :: w, [] => rfl
    | ti :: t, wi :: w, fi :: fs => rfl
  | cons si s ih =>
    intro t w fs hsym
    match t, w, fs with
    | [], w, fs => rfl
    | ti :: t, [], fs => rfl
    | ti :: t, wi :: w, [] => rfl
    | ti :: t, wi :: w, fi :: fs =>
      rw [wcsAccum_cons, wcsAccum_cons]
      rw [hsym fi (List.mem_cons_self fi fs) si ti]
      rw [ih t w fs (fun f hf => hsym f (List.mem_cons_of_mem fi hf))]

theorem wcsAccum_diag_binF :
    ∀ (s : List ℚ),
      wcsAccum s s (List.replicate s.length 1) (List.replicate s.length binF) =
        .ok ((s.length : ℚ), (s.length : ℚ)) := by
  intro s
  induction s with
  | nil => rfl
  | cons si s ih =>
    simp only [List.length_cons, List.replicate]
    rw [wcsAccum_cons, if_neg (by norm_num)]
    have hb : binF si si = .ok 1 := by simp [binF, similarity_binary]
    rw [hb, ih]
    have hc : clip01 (1 : ℚ) = 1 := by norm_num [clip01]
    simp only [hc]
    have h1 : 1 * 1 + (s.length : ℚ) = ((s.length + 1 : ℕ) : ℚ) := by push_cast; ring
    have h2 : 1 + (s.length : ℚ) = ((s.length + 1 : ℕ) : ℚ) := by push_cast; ring
    rw [h1, h2]

theorem wcsAccum_set :
    ∀ (s t w : List ℚ) (fs : List SimFunc) (i : ℕ) (x y : ℚ) (g : SimFunc)
      (hi : i < w.length),
      w.get ⟨i, hi⟩ ≤ 0 →
      wcsAccum (s.set i x) (t.set i y) w (fs.set i g) = wcsAccum s t w fs := by
  intro s
  induction s with
  | nil =>
    intro t w fs i x y g hi hw
    simp only [List.set_nil]
    rw [wcsAccum_nil, wcsAccum_nil]
  | cons si s ih =>
    intro t w fs i x y g hi hw
    match t, w, fs, i with
    | [], w, fs, i =>
      simp only [List.set_nil]
      match i with
      | 0 => rfl
      | i + 1 => rfl
    | ti :: t, [], fs, i => exact absurd hi (by simp)
    | ti :: t, wi :: w, [], i =>
      simp only [List.set_nil]
      match i with
      | 0 => rfl
      | i + 1 => rfl
    | ti :: t, wi :: w, fi :: fs, 0 =>
      simp only [List.set_cons_zero]
      rw [wcsAccum_cons, wcsAccum_cons]
      simp only [List.get] at hw
      rw [if_pos hw, if_pos hw]
    | ti :: t, wi :: w, fi :: fs, i + 1 =>
      simp only [List.set_cons_succ]
      rw [wcsAccum_cons, wcsAccum_cons]
      simp only [List.length_cons] at hi
      have hi' : i < w.length := Nat.lt_of_succ_lt_succ hi
      have hw' : w.get ⟨i, hi'⟩ ≤ 0 := hw
      rw [ih t w fs i x y g hi' hw']

theorem wcs_some_some (s t w : List ℚ) (fs : List SimFunc) (sc : Option (List ℚ))
    (hst : s.length = t.length) (h0 : s.length ≠ 0)
    (hw : w.length = s.length) (hfs : fs.length = s.length) :
    weighted_cohesion_score s t (some w) (some fs) sc =
      match wcsAccum s t w fs with
      | .error e => .error e
      | .ok (a, b) => if b ≤ 0 then .ok 0 else .ok (a / b) := by
  have ht0 : t ≠ [] := by
    intro hteq; subst hteq; simp at hst; exact h0 (by simp [hst])
  unfold weighted_cohesion_score
  simp [hst, h0, hw, hfs, ht0]

theorem wcs_none_some (s t : List ℚ) (fs : List SimFunc) (sc : Option (List ℚ))
    (hst : s.length = t.length) (h0 : s.length ≠ 0)
    (hfs : fs.length = s.length) :
    weighted_cohesion_score s t none (some fs) sc =
      match wcsAccum s t (List.replicate s.length 1) fs with
      | .error e => .error e
      | .ok (a, b) => if b ≤ 0 then .ok 0 else .ok (a / b) := by
  have ht0 : t ≠ [] := by
    intro hteq; subst hteq; simp at hst; exact h0 (by simp [hst])
  unfold weighted_cohesion_score
  simp [hst, h0, hfs, ht0]

theorem wcs_scales (s t : List ℚ) (weights : Option (List ℚ)) (w sc : List ℚ)
    (hst : s.length = t.length) (h0 : s.length ≠ 0)
    (hwe : match weights with
      | none => w = List.replicate s.length 1
      | some ws => w = ws ∧ ws.length = s.length)
    (hsc : sc.length = s.length) :
    weighted_cohesion_score s t weights none (some sc) =
      match wcsAccum s t w (sc.map scalarF) with
      | .error e => .error e
      | .ok (a, b) => if b ≤ 0 then .ok 0 else .ok (a / b) := by
  have ht0 : t ≠ [] := by
    intro hteq; subst hteq; simp at hst; exact h0 (by simp [hst])
  unfold weighted_cohesion_score
  match weights with
  | none =>
    simp only [hwe, hst]
    simp [h0, hst ▸ hsc, ht0]
  | some ws =>
    obtain ⟨hww, hlen⟩ := hwe
    subst hww
    simp [hst, h0, hsc, hlen, ht0]

theorem wcs_weights_mismatch (s t ws : List ℚ) (sim : Option (List SimFunc))
    (sc : Option (List ℚ))
    (hst : s.length = t.length) (h0 : s.length ≠ 0) (hw : ws.length ≠ s.length) :
    weighted_cohesion_score s t (some ws) sim sc =
      .error (.shapeMismatch .weights) := by
  have ht0 : t ≠ [] := by
    intro hteq; subst hteq; simp at hst; exact h0 (by simp [hst])
  have hw' : ws.length ≠ t.length := hst ▸ hw
  unfold weighted_cohesion_score
  simp [hst, h0, hw', ht0]

theorem wcs_missing_config (s t : List ℚ) (weights : Option (List ℚ))
    (hst : s.length = t.length) (h0 : s.length ≠ 0)
    (hwe : match weights with
      | none => True
      | some ws => ws.length = s.length) :
    weighted_cohesion_score s t weights none none =
      .error .missingConfiguration := by
  have ht0 : t ≠ [] := by
    intro hteq; subst hteq; simp at hst; exact h0 (by simp [hst])
  unfold weighted_cohesion_score
  match weights with
  | none => simp [hst, h0, ht0]
  | some ws => simp [hst, h0, hst ▸ hwe, ht0]

theorem wcs_similarity_mismatch (s t : List ℚ) (weights : Option (List ℚ))
    (fs : List SimFunc) (sc : Option (List ℚ))
    (hst : s.length = t.length) (h0 : s.length ≠ 0)
    (hwe : match weights with
      | none => True
      | some ws => ws.length = s.length)
    (hfs : fs.length ≠ s.length) :
    weighted_cohesion_score s t weights (some fs) sc =
      .error (.shapeMismatch .similarity) := by
  have ht0 : t ≠ [] := by
    intro hteq; subst hteq; simp at hst; exact h0 (by simp [hst])
  have hfs' : fs.length ≠ t.length := hst ▸ hfs
  unfold weighted_cohesion_score
  match weights with
  | none => simp [hst, h0, hfs', ht0]
  | some ws => simp [hst, h0, hst ▸ hwe, hfs', ht0]

theorem wcs_scales_mismatch (s t : List ℚ) (weights : Option (List ℚ))
    (sc : List ℚ)
    (hst : s.length = t.length) (h0 : s.length ≠ 0)
    (hwe : match weights with
      | none => True
      | some ws => ws.length = s.length)
    (hsc : sc.length ≠ s.length) :
    weighted_cohesion_score s t weights none (some sc) =
      .error (.shapeMismatch .scales) := by
  have ht0 : t ≠ [] := by
    intro hteq; subst hteq; simp at hst; exact h0 (by simp [hst])
  have hsc' : sc.length ≠ t.length := hst ▸ hsc
  unfold weighted_cohesion_score
  match weights with
  | none => simp [hst, h0, hsc', ht0]
  | some ws => simp [hst, h0, hst ▸ hwe, hsc', ht0]

theorem wcs_empty (weights : Option (List ℚ)) (sim : Option (List SimFunc))
    (sc : Option (List ℚ)) :
    weighted_cohesion_score [] [] weights sim sc = .ok 0 := by
  unfold weighted_cohesion_score
  simp

theorem wcsFinish_range (s t w : List ℚ) (sims : List SimFunc) (r : ℚ)
    (h : (match wcsAccum s t w sims with
          | .error e => .error e
          | .ok (a, b) => if b ≤ 0 then .ok 0 else .ok (a / b)) =
        Except.ok r) :
    0 ≤ r ∧ r ≤ 1 := by
  rcases hacc : wcsAccum s t w sims with e | ⟨a, b⟩
  · rw [hacc] at h; simp at h
  · rw [hacc] at h
    simp only at h
    by_cases hb : b ≤ 0
    · rw [if_pos hb] at h
      simp at h
      simp [← h]
    · rw [if_neg hb] at h
      simp at h
      push_neg at hb
      obtain ⟨ha0, hab⟩ := wcsAccum_bounds s t w sims a b hacc
      constructor
      · rw [← h]; positivity
      · rw [← h]
        rw [div_le_one hb]
        exact hab

theorem wcs_ok_range (s t : List ℚ) (weights : Option (List ℚ))
    (sim : Option (List SimFunc)) (sc : Option (List ℚ)) (r : ℚ)
    (h : weighted_cohesion_score s t weights sim sc = .ok r) :
    0 ≤ r ∧ r ≤ 1 := by
  by_cases hst : s.length = t.length
  swap
  · unfold weighted_cohesion_score at h
    rw [if_pos hst] at h
    simp at h
  by_cases h0 : s.length = 0
  · unfold weighted_cohesion_score at h
    rw [if_neg (by simp [hst]), if_pos h0] at h
    simp at h
    simp [← h]
  -- main case: nonempty, equal lengths
  rcases weights with _ | ws
  all_goals rcases sim with _ | fs
  -- weights none, sim none
  · rcases sc with _ | scl
    · rw [wcs_missing_config s t none hst h0 trivial] at h
      simp at h
    · by_cases hscl : scl.length = s.length
      · rw [wcs_scales s t none (List.replicate s.length 1) scl hst h0 rfl hscl] at h
        exact wcsFinish_range s t (List.replicate s.length 1) (scl.map scalarF) r h
      · rw [wcs_scales_mismatch s t none scl hst h0 trivial hscl] at h
        simp at h
  -- weights none, sim some fs
  · by_cases hfs : fs.length = s.length
    · rw [wcs_none_some s t fs sc hst h0 hfs] at h
      exact wcsFinish_range s t (List.replicate s.length 1) fs r h
    · rw [wcs_similarity_mismatch s t none fs sc hst h0 trivial hfs] at h
      simp at h
  -- weights some ws, sim none
  · by_cases hws : ws.length = s.length
    swap
    · rw [wcs_weights_mismatch s t ws none sc hst h0 hws] at h
      simp at h
    · rcases sc with _ | scl
      · rw [wcs_missing_config s t (some ws) hst h0 hws] at h
        simp at h
      · by_cases hscl : scl.length = s.length
        · rw [wcs_scales s t (some ws) ws scl hst h0 ⟨rfl, hws⟩ hscl] at h
          exact wcsFinish_range s t ws (scl.map scalarF) r h
        · rw [wcs_scales_mismatch s t (some ws) scl hst h0 hws hscl] at h
          simp at h
  -- weights some ws, sim some fs
  · by_cases hws : ws.length = s.length
    swap
    · rw [wcs_weights_mismatch s t ws (some fs) sc hst h0 hws] at h
      simp at h
    · by_cases hfs : fs.length = s.length
      · rw [wcs_some_some s t ws fs sc hst h0 hws hfs] at h
        exact wcsFinish_range s t ws fs r h
      · rw [wcs_similarity_mismatch s t (some ws) fs sc hst h0 hws hfs] at h
        simp at h
/-- Claim C1: for every subject and target with a configuration accepted by
`weighted_cohesion_score` (every successful call), the returned score lies
in [0,1], even when a supplied similarity function returns values outside
[0,1]: each per-attribute similarity value is clipped to [0,1] before
aggregation. -/
theorem C1_wcs_output_in_unit_interval (s t : List ℚ)
    (weights : Option (List ℚ)) (sim : Option (List SimFunc))
    (sc : Option (List ℚ)) (r : ℚ)
    (h : weighted_cohesion_score s t weights sim sc = .ok r) :
    0 ≤ r ∧ r ≤ 1 :=
  wcs_ok_range s t weights sim sc r h

/-- Witness for C1: a similarity function returning 5 (outside [0,1]) is
clipped, the call returns 1, and the theorem applies. -/
theorem C1_witness :
    weighted_cohesion_score [0] [0] none (some [fun _ _ => .ok 5]) none = .ok 1 ∧
    ((0 : ℚ) ≤ 1 ∧ (1 : ℚ) ≤ 1) := by
  have hcomp : weighted_cohesion_score [0] [0] none (some [fun _ _ => .ok 5]) none
      = .ok 1 := by
    norm_num [weighted_cohesion_score, wcsAccum, clip01, min_def, max_def,
      List.replicate]
  exact ⟨hcomp,
    C1_wcs_output_in_unit_interval [0] [0] none (some [fun _ _ => .ok 5]) none 1 hcomp⟩

/-- Claim C3: when both the subject and the target vector are empty,
`weighted_cohesion_score` returns 0.0 immediately without validating the
remaining arguments: whatever weights, similarity functions or scales are
supplied (mismatched, missing, or otherwise), the result is `.ok 0` and
no error is raised. -/
theorem C3_empty_vectors_return_zero_unvalidated
    (weights : Option (List ℚ)) (sim : Option (List SimFunc))
    (sc : Option (List ℚ)) :
    weighted_cohesion_score [] [] weights sim sc = .ok 0 :=
  wcs_empty weights sim sc

/-- Claim C5: `similarity_scalar(a, b, scale)` returns
`clip(1 - |a - b| / scale, 0, 1)` for every strictly positive scale, and
fails with the `InvalidArgument` condition if and only if `scale <= 0`;
it has no other error condition. -/
theorem C5_similarity_scalar_spec (a b scale : ℚ) :
    (0 < scale →
      similarity_scalar a b scale = .ok (max 0 (min 1 (1 - |a - b| / scale)))) ∧
    (similarity_scalar a b scale = .error .invalidArgument ↔ scale ≤ 0) ∧
    (∀ e, similarity_scalar a b scale = .error e → e = .invalidArgument) := by
  unfold similarity_scalar
  by_cases h : scale ≤ 0
  · rw [if_pos h]
    refine ⟨fun hpos => absurd hpos (not_lt.mpr h), by simp [h], fun e he => ?_⟩
    exact (Except.error.injEq _ _ ▸ he).symm
  · rw [if_neg h]
    push_neg at h
    refine ⟨fun _ => rfl, by simp [not_le.mpr h], fun e he => by simp at he⟩

/-- Witness for C5: at scale 2 the value is computed and clipped; at scale
-1 the `InvalidArgument` condition fires. -/
theorem C5_witness :
    similarity_scalar 0 1 2 = .ok (1 / 2) ∧
    similarity_scalar 0 1 (-1) = .error .invalidArgument := by
  constructor
  · have h := (C5_similarity_scalar_spec 0 1 2).1 (by norm_num)
    rw [h]
    norm_num [min_def, max_def]
  · exact ((C5_similarity_scalar_spec 0 1 (-1)).2.1).mpr (by norm_num)

/-- Claim C9 (fixed-schema model, modelled from the spec): `evaluate_option`
marks an option vetoed exactly when the raw Dissolution input D is strictly
greater than the veto threshold, independently of the computed risk value;
at threshold 0.8, D = 0.81 is vetoed and D = 0.80 is not. -/
theorem C9_veto_strict_boundary :
    (∀ (name : String) (F P D wF wP wD_star lambda_ thr : ℚ),
      (evaluate_option name F P D wF wP wD_star lambda_ thr).vetoed =
        decide (D > thr)) ∧
    (evaluate_option "opt" 0.5 0.5 0.81 1 1 1 0.7 0.8).vetoed = true ∧
    (evaluate_option "opt" 0.5 0.5 0.80 1 1 1 0.7 0.8).vetoed = false := by
  refine ⟨fun name F P D wF wP wD_star lambda_ thr => rfl, ?_, ?_⟩
  · simp [evaluate_option]
    norm_num
  · simp [evaluate_option]
    norm_num

/-- Counterexample to claim C2 as stated: with both vectors empty, a
weights argument of mismatched length (length 1 against attribute length
0) does not fail with ShapeMismatch, and the absent similarity/scales
configuration does not fail with MissingConfiguration: the call returns
0.0. -/
theorem C2_counterexample :
    weighted_cohesion_score [] [] (some [1]) none none = .ok 0 ∧
    ∀ e, weighted_cohesion_score [] [] (some [1]) none none ≠ .error e := by
  constructor
  · norm_num [weighted_cohesion_score]
  · intro e h
    rw [wcs_empty] at h
    exact Except.noConfusion h

/-- Claim C2 as amended: for every call with subject and target of equal
NONEMPTY length, a provided weights of mismatched length fails with
ShapeMismatch; with valid weights, a missing similarity-function list and
missing scales fails with MissingConfiguration; and a provided
similarity-function list or scales vector of mismatched length fails with
ShapeMismatch.  (With both vectors empty the call returns 0.0 without
these validations.) -/
theorem C2_validation_errors (s t : List ℚ)
    (hst : s.length = t.length) (hne : s ≠ []) :
    (∀ (ws : List ℚ) (sim : Option (List SimFunc)) (sc : Option (List ℚ)),
      ws.length ≠ s.length →
      weighted_cohesion_score s t (some ws) sim sc =
        .error (.shapeMismatch .weights)) ∧
    (∀ weights : Option (List ℚ),
      (match weights with
        | none => True
        | some ws => ws.length = s.length) →
      weighted_cohesion_score s t weights none none =
        .error .missingConfiguration) ∧
    (∀ (weights : Option (List ℚ)) (fs : List SimFunc) (sc : Option (List ℚ)),
      (match weights with
        | none => True
        | some ws => ws.length = s.length) →
      fs.length ≠ s.length →
      weighted_cohesion_score s t weights (some fs) sc =
        .error (.shapeMismatch .similarity)) ∧
    (∀ (weights : Option (List ℚ)) (scl : List ℚ),
      (match weights with
        | none => True
        | some ws => ws.length = s.length) →
      scl.length ≠ s.length →
      weighted_cohesion_score s t weights none (some scl) =
        .error (.shapeMismatch .scales)) := by
  have h0 : s.length ≠ 0 := by simpa [List.length_eq_zero] using hne
  exact ⟨fun ws sim sc hws => wcs_weights_mismatch s t ws sim sc hst h0 hws,
    fun weights hwe => wcs_missing_config s t weights hst h0 hwe,
    fun weights fs sc hwe hfs =>
      wcs_similarity_mismatch s t weights fs sc hst h0 hwe hfs,
    fun weights scl hwe hscl =>
      wcs_scales_mismatch s t weights scl hst h0 hwe hscl⟩

/-- Witness for the amended C2: each of the four validation failures at a
concrete nonempty call. -/
theorem C2_witness :
    weighted_cohesion_score [0] [0] (some [1, 1]) none none =
      .error (.shapeMismatch .weights) ∧
    weighted_cohesion_score [0] [0] none none none =
      .error .missingConfiguration ∧
    weighted_cohesion_score [0] [0] none (some [binF, binF]) none =
      .error (.shapeMismatch .similarity) ∧
    weighted_cohesion_score [0] [0] none none (some [1, 2]) =
      .error (.shapeMismatch .scales) :=
  ⟨(C2_validation_errors [0] [0] rfl (by simp)).1 [1, 1] none none (by simp),
    (C2_validation_errors [0] [0] rfl (by simp)).2.1 none trivial,
    (C2_validation_errors [0] [0] rfl (by simp)).2.2.1 none [binF, binF] none
      trivial (by simp),
    (C2_validation_errors [0] [0] rfl (by simp)).2.2.2 none [1, 2]
      trivial (by simp)⟩

/-- Claim C4: `distributional_ratio` computes the two cohesion scores with
the same configuration and returns 1.0 when both are ≤ eps, positive
infinity when only `wcs_b` is ≤ eps, and the ratio `wcs_a / wcs_b`
otherwise (stated for the guard's intended nonnegative eps; the default is
1e-12). -/
theorem C4_dr_three_cases (s ta tb : List ℚ)
    (weights : Option (List ℚ)) (sim : Option (List SimFunc))
    (sc : Option (List ℚ)) (eps a b : ℚ)
    (heps : 0 ≤ eps)
    (ha : weighted_cohesion_score s ta weights sim sc = .ok a)
    (hb : weighted_cohesion_score s tb weights sim sc = .ok b) :
    distributional_ratio s ta tb weights sim sc eps =
      .ok (if b ≤ eps then (if a ≤ eps then .val 1 else .posInf)
           else .val (a / b)) := by
  unfold distributional_ratio
  rw [ha, hb]
  simp only
  by_cases h1 : b ≤ eps
  · rw [if_pos h1, if_pos h1]
    by_cases h2 : a ≤ eps
    · rw [if_pos h2, if_pos h2]
    · rw [if_neg h2, if_neg h2]
  · rw [if_neg h1, if_neg h1]
    have hb0 : b ≠ 0 := by
      intro hz
      rw [hz] at h1
      exact h1 heps
    rw [if_neg hb0]

/-- Witness for C4: with identical targets and binary similarity the two
scores are 1 and the ratio branch returns 1/1. -/
theorem C4_witness :
    (0 : ℚ) ≤ 1 / 1000000000000 ∧
    weighted_cohesion_score [0] [0] none (some [binF]) none = .ok 1 ∧
    distributional_ratio [0] [0] [0] none (some [binF]) none
        (1 / 1000000000000) = .ok (.val (1 / 1)) := by
  have hw : weighted_cohesion_score [0] [0] none (some [binF]) none = .ok 1 := by
    norm_num [weighted_cohesion_score, wcsAccum, binF, similarity_binary,
      clip01, min_def, max_def, List.replicate]
  refine ⟨by norm_num, hw, ?_⟩
  have h := C4_dr_three_cases [0] [0] [0] none (some [binF]) none
    (1 / 1000000000000) 1 1 (by norm_num) hw hw
  rw [h]
  norm_num

/-- Claim C6: an attribute index whose weight is ≤ 0 is excluded from both
the numerator and the denominator: simultaneously replacing the subject
value, target value, and similarity function at such an index leaves the
result unchanged; and when every weight is ≤ 0 (or the vectors are empty)
the result is exactly 0.0 rather than an error. -/
theorem C6_nonpositive_weights_excluded :
    (∀ (s t ws : List ℚ) (fs : List SimFunc) (x y : ℚ) (g : SimFunc) (i : ℕ)
      (hi : i < ws.length),
      s.length = t.length → ws.length = s.length → fs.length = s.length →
      ws.get ⟨i, hi⟩ ≤ 0 →
      weighted_cohesion_score (s.set i x) (t.set i y) (some ws)
          (some (fs.set i g)) none =
        weighted_cohesion_score s t (some ws) (some fs) none) ∧
    (∀ (s t ws : List ℚ) (fs : List SimFunc),
      s.length = t.length → ws.length = s.length → fs.length = s.length →
      (∀ wi ∈ ws, wi ≤ 0) →
      weighted_cohesion_score s t (some ws) (some fs) none = .ok 0) ∧
    (∀ (weights : Option (List ℚ)) (sim : Option (List SimFunc))
      (sc : Option (List ℚ)),
      weighted_cohesion_score [] [] weights sim sc = .ok 0) := by
  refine ⟨?_, ?_, fun weights sim sc => wcs_empty weights sim sc⟩
  · intro s t ws fs x y g i hi hst hws hfs hwle
    by_cases h0 : s.length = 0
    · exact absurd hi (by omega)
    · rw [wcs_some_some (s.set i x) (t.set i y) ws (fs.set i g) none
        (by simp [hst]) (by simp [h0]) (by simp [hws]) (by simp [hfs])]
      rw [wcs_some_some s t ws fs none hst h0 hws hfs]
      rw [wcsAccum_set s t ws fs i x y g hi hwle]
  · intro s t ws fs hst hws hfs hall
    by_cases h0 : s.length = 0
    · have hs : s = [] := List.length_eq_zero.mp h0
      have ht : t = [] := List.length_eq_zero.mp (hst ▸ h0)
      rw [hs, ht]
      exact wcs_empty (some ws) (some fs) none
    · rw [wcs_some_some s t ws fs none hst h0 hws hfs]
      rw [wcsAccum_all_nonpos s t ws fs hall]
      norm_num

/-- Witness for C6: changing subject, target, and similarity function at a
zero-weight index leaves the score unchanged; an all-nonpositive weight
vector yields 0.0. -/
theorem C6_witness :
    weighted_cohesion_score ([(0 : ℚ), 1].set 0 5) ([(0 : ℚ), 1].set 0 7)
        (some [0, 1]) (some ([binF, binF].set 0 (fun _ _ => .ok 0))) none =
      weighted_cohesion_score [(0 : ℚ), 1] [(0 : ℚ), 1] (some [0, 1])
        (some [binF, binF]) none ∧
    weighted_cohesion_score [(0 : ℚ)] [0] (some [0]) (some [binF]) none =
      .ok 0 :=
  ⟨C6_nonpositive_weights_excluded.1 [0, 1] [0, 1] [0, 1] [binF, binF] 5 7
      (fun _ _ => .ok 0) 0 (by norm_num) rfl rfl rfl (by norm_num),
    C6_nonpositive_weights_excluded.2.1 [0] [0] [0] [binF] rfl rfl rfl
      (by intro wi hwi; simp at hwi; simp [hwi])⟩

/-- Counterexample to claim C7 as stated: with subject and target both
empty (equal element-wise) and binary similarity at every attribute
(vacuously), the score is 0.0, not 1.0. -/
theorem C7_counterexample :
    weighted_cohesion_score [] [] none (some []) none = .ok 0 ∧
    weighted_cohesion_score [] [] none (some []) none ≠ .ok 1 := by
  refine ⟨wcs_empty none (some []) none, ?_⟩
  rw [wcs_empty]
  simp
/-- Claim C7 as amended: for every NONEMPTY subject equal to the target,
`weighted_cohesion_score` with default weights and binary similarity at
every attribute returns exactly 1.0 (the empty call returns 0.0). -/
theorem C7_identical_binary_one (s : List ℚ) (hs : s ≠ []) :
    weighted_cohesion_score s s none
        (some (List.replicate s.length binF)) none = .ok 1 := by
  have h0 : s.length ≠ 0 := by simpa [List.length_eq_zero] using hs
  rw [wcs_none_some s s (List.replicate s.length binF) none rfl h0
    (List.length_replicate _ _)]
  rw [wcsAccum_diag_binF s]
  have hpos : (0 : ℚ) < (s.length : ℚ) := by
    exact_mod_cast Nat.pos_of_ne_zero h0
  simp [not_le.mpr hpos, div_self (ne_of_gt hpos)]

/-- Witness for the amended C7: a concrete two-attribute identical pair
scores exactly 1. -/
theorem C7_witness :
    weighted_cohesion_score [(3 : ℚ), 4] [(3 : ℚ), 4] none
        (some (List.replicate 2 binF)) none = .ok 1 :=
  C7_identical_binary_one [3, 4] (by simp)

/-- Claim C10: with eps ≥ 0 the final division of `distributional_ratio`
never divides by zero (given the two underlying cohesion scores were
computed, the guard `wcs_b <= eps` intercepts every zero denominator since
a cohesion score is never negative), so the call returns a value; for
every eps < 0 there are inputs (all weights zero, so both scores are 0)
on which the guard is bypassed and the division by zero is reached. -/
theorem C10_division_by_zero_guard :
    (∀ (s ta tb : List ℚ) (weights : Option (List ℚ))
      (sim : Option (List SimFunc)) (sc : Option (List ℚ)) (eps a b : ℚ),
      0 ≤ eps →
      weighted_cohesion_score s ta weights sim sc = .ok a →
      weighted_cohesion_score s tb weights sim sc = .ok b →
      ∃ r, distributional_ratio s ta tb weights sim sc eps = .ok r) ∧
    (∀ eps : ℚ, eps < 0 →
      distributional_ratio [0] [0] [0] (some [0]) (some [binF]) none eps =
        .error .divisionByZero) := by
  constructor
  · intro s ta tb weights sim sc eps a b heps ha hb
    unfold distributional_ratio
    rw [ha, hb]
    simp only
    by_cases h1 : b ≤ eps
    · rw [if_pos h1]
      by_cases h2 : a ≤ eps
      · exact ⟨.val 1, by rw [if_pos h2]⟩
      · exact ⟨.posInf, by rw [if_neg h2]⟩
    · rw [if_neg h1]
      have hb0 : b ≠ 0 := by
        intro hz
        rw [hz] at h1
        exact h1 heps
      exact ⟨.val (a / b), by rw [if_neg hb0]⟩
  · intro eps heps
    have hz : weighted_cohesion_score [0] [0] (some [(0 : ℚ)]) (some [binF])
        none = .ok 0 := by
      rw [wcs_some_some [0] [0] [0] [binF] none rfl (by simp) rfl rfl]
      rw [wcsAccum_all_nonpos [0] [0] [0] [binF] (by intro wi hwi; simp at hwi; simp [hwi])]
      norm_num
    unfold distributional_ratio
    rw [hz]
    simp only
    simp [not_le.mpr heps]

/-- Witness for C10: both conjuncts at concrete inputs (eps = 0 for the
guard, eps = -1 for the bypass). -/
theorem C10_witness :
    (0 : ℚ) ≤ 0 ∧
    (∃ r, distributional_ratio [0] [0] [0] none (some [binF]) none 0 = .ok r) ∧
    distributional_ratio [0] [0] [0] (some [0]) (some [binF]) none (-1) =
      .error .divisionByZero := by
  have hw : weighted_cohesion_score [0] [0] none (some [binF]) none = .ok 1 := by
    norm_num [weighted_cohesion_score, wcsAccum, binF, similarity_binary,
      clip01, min_def, max_def, List.replicate]
  exact ⟨le_refl 0,
    C10_division_by_zero_guard.1 [0] [0] [0] none (some [binF]) none 0 1 1
      (le_refl 0) hw hw,
    C10_division_by_zero_guard.2 (-1) (by norm_num)⟩

theorem binF_symm (a b : ℚ) : binF a b = binF b a := by
  unfold binF similarity_binary
  by_cases h : a = b
  · rw [if_pos h, if_pos h.symm]
  · rw [if_neg h, if_neg (fun hh => h hh.symm)]

theorem scalarF_symm (c a b : ℚ) : scalarF c a b = scalarF c b a := by
  unfold scalarF similarity_scalar
  rw [abs_sub_comm]

theorem wcs_symm_of_symm_sims (s t : List ℚ) (weights : Option (List ℚ))
    (fs : List SimFunc) (sc : Option (List ℚ))
    (hst : s.length = t.length)
    (hsym : ∀ f ∈ fs, ∀ a b, f a b = f b a) :
    weighted_cohesion_score s t weights (some fs) sc =
      weighted_cohesion_score t s weights (some fs) sc := by
  by_cases h0 : s.length = 0
  · have hs : s = [] := List.length_eq_zero.mp h0
    have ht : t = [] := List.length_eq_zero.mp (hst ▸ h0)
    rw [hs, ht]
  · have h0t' : t.length ≠ 0 := hst ▸ h0
    rcases weights with _ | ws
    · by_cases hfs : fs.length = s.length
      · rw [wcs_none_some s t fs sc hst h0 hfs,
          wcs_none_some t s fs sc hst.symm h0t' (hst ▸ hfs)]
        rw [wcsAccum_symm s t (List.replicate s.length 1) fs hsym, hst]
      · rw [wcs_similarity_mismatch s t none fs sc hst h0 trivial hfs,
          wcs_similarity_mismatch t s none fs sc hst.symm h0t' trivial
            (fun h => hfs (hst ▸ h))]
    · by_cases hws : ws.length = s.length
      · by_cases hfs : fs.length = s.length
        · rw [wcs_some_some s t ws fs sc hst h0 hws hfs,
            wcs_some_some t s ws fs sc hst.symm h0t' (hst ▸ hws) (hst ▸ hfs)]
          rw [wcsAccum_symm s t ws fs hsym]
        · rw [wcs_similarity_mismatch s t (some ws) fs sc hst h0 hws hfs,
            wcs_similarity_mismatch t s (some ws) fs sc hst.symm h0t'
              (hst ▸ hws) (fun h => hfs (hst ▸ h))]
      · rw [wcs_weights_mismatch s t ws (some fs) sc hst h0 hws,
          wcs_weights_mismatch t s ws (some fs) sc hst.symm h0t'
            (fun h => hws (hst ▸ h))]

theorem wcs_scales_symm (s t : List ℚ) (weights : Option (List ℚ))
    (scl : List ℚ)
    (hst : s.length = t.length) :
    weighted_cohesion_score s t weights none (some scl) =
      weighted_cohesion_score t s weights none (some scl) := by
  by_cases h0 : s.length = 0
  · have hs : s = [] := List.length_eq_zero.mp h0
    have ht : t = [] := List.length_eq_zero.mp (hst ▸ h0)
    rw [hs, ht]
  · have h0t' : t.length ≠ 0 := hst ▸ h0
    have hsym : ∀ f ∈ scl.map scalarF, ∀ a b, f a b = f b a := by
      intro f hf a b
      obtain ⟨c, _, hc⟩ := List.mem_map.mp hf
      rw [← hc]
      exact scalarF_symm c a b
    rcases weights with _ | ws
    · by_cases hscl : scl.length = s.length
      · rw [wcs_scales s t none (List.replicate s.length 1) scl hst h0 rfl hscl,
          wcs_scales t s none (List.replicate t.length 1) scl hst.symm h0t'
            rfl (hst ▸ hscl)]
        rw [wcsAccum_symm s t (List.replicate s.length 1) (scl.map scalarF) hsym,
          hst]
      · rw [wcs_scales_mismatch s t none scl hst h0 trivial hscl,
          wcs_scales_mismatch t s none scl hst.symm h0t' trivial
            (fun h => hscl (hst ▸ h))]
    · by_cases hws : ws.length = s.length
      · by_cases hscl : scl.length = s.length
        · rw [wcs_scales s t (some ws) ws scl hst h0 ⟨rfl, hws⟩ hscl,
            wcs_scales t s (some ws) ws scl hst.symm h0t' ⟨rfl, hst ▸ hws⟩
              (hst ▸ hscl)]
          rw [wcsAccum_symm s t ws (scl.map scalarF) hsym]
        · rw [wcs_scales_mismatch s t (some ws) scl hst h0 hws hscl,
            wcs_scales_mismatch t s (some ws) scl hst.symm h0t' (hst ▸ hws)
              (fun h => hscl (hst ▸ h))]
      · rw [wcs_weights_mismatch s t ws none (some scl) hst h0 hws,
          wcs_weights_mismatch t s ws none (some scl) hst.symm h0t'
            (fun h => hws (hst ▸ h))]

/-- Claim C8: for subject and target of equal length, with the binary or
the scalar similarity function at every attribute (whether given as an
explicit similarity list or built from a scales vector),
`weighted_cohesion_score` is symmetric under simultaneous swap of subject
and target. -/
theorem C8_wcs_symmetric :
    (∀ (s t : List ℚ) (weights : Option (List ℚ)) (fs : List SimFunc)
      (sc : Option (List ℚ)),
      s.length = t.length →
      (∀ f ∈ fs, f = binF ∨ ∃ c, f = scalarF c) →
      weighted_cohesion_score s t weights (some fs) sc =
        weighted_cohesion_score t s weights (some fs) sc) ∧
    (∀ (s t : List ℚ) (weights : Option (List ℚ)) (scl : List ℚ),
      s.length = t.length →
      weighted_cohesion_score s t weights none (some scl) =
        weighted_cohesion_score t s weights none (some scl)) := by
  constructor
  · intro s t weights fs sc hst hbs
    apply wcs_symm_of_symm_sims s t weights fs sc hst
    intro f hf a b
    rcases hbs f hf with hb | ⟨c, hc⟩
    · rw [hb]; exact binF_symm a b
    · rw [hc]; exact scalarF_symm c a b
  · intro s t weights scl hst
    exact wcs_scales_symm s t weights scl hst

/-- Witness for C8: a concrete swap with one binary and one scalar
attribute, and a concrete swap through the scales pathway. -/
theorem C8_witness :
    weighted_cohesion_score [(1 : ℚ), 2] [(3 : ℚ), 5] none
        (some [binF, scalarF 4]) none =
      weighted_cohesion_score [(3 : ℚ), 5] [(1 : ℚ), 2] none
        (some [binF, scalarF 4]) none ∧
    weighted_cohesion_score [(1 : ℚ), 2] [(3 : ℚ), 5] none none
        (some [4, 4]) =
      weighted_cohesion_score [(3 : ℚ), 5] [(1 : ℚ), 2] none none
        (some [4, 4]) :=
  ⟨C8_wcs_symmetric.1 [1, 2] [3, 5] none [binF, scalarF 4] none rfl
      (by
        intro f hf
        simp at hf
        rcases hf with h | h
        · exact Or.inl h
        · exact Or.inr ⟨4, h⟩),
    C8_wcs_symmetric.2 [1, 2] [3, 5] none [4, 4] rfl⟩
